import Mathlib

/-!
Verification development for the `fixedincome` bond-analytics library
(`src/fixedincome/utils.py` and `src/fixedincome/bonds.py`).

The Python code is shallowly embedded:
* `datetime.date` becomes the `Date` structure (year, month, day).
  Python date subtraction (`(b - a).days`) is the proleptic-Gregorian
  day-number difference, embedded via the standard days-from-civil
  computation `Date.toDayNumber`.
* `dateutil.relativedelta.relativedelta(months=k)` addition becomes
  `Date.addMonths`, which shifts the month index and clamps the day to
  the length of the target month, exactly as `dateutil` does.
* Python floor division `//` and `%` on integers become `Int.fdiv` and
  `Int.fmod`.
* Python floats are modelled as exact numbers: `ℚ` where the code only
  does field arithmetic, `ℝ` where a real power with a non-integer
  exponent occurs (`np.power` in `price`).
* Raised Python exceptions become the `Err` type inside `Except`.
  `ValueError` and `AssertionError` (both used by the code for argument
  validation) are modelled as `Err.invalidArgument`; `ZeroDivisionError`,
  `IndexError` and `NameError` keep their own constructors.
* The unbounded `while` loop of `coupon_dates` is embedded with explicit
  fuel; the loop returning `none` means the fuel was exhausted, and
  non-termination of the Python loop is expressed as `none` for every
  fuel value.
-/

/-- Err models the Python exceptions the embedded code can raise.
`invalidArgument` stands for the argument-validation failures
(`ValueError` from an unrecognized basis, `AssertionError` from the
Actual/Actual asserts), matching the spec's `InvalidArgument` class;
`yearOutOfRange` is the distinct `ValueError` that `datetime.date`
raises for a year outside 1..9999 (e.g. from `date.replace` inside a
`relativedelta` addition); the remaining constructors model
`ZeroDivisionError`, `IndexError` and `NameError`. -/
inductive Err where
  | invalidArgument
  | zeroDivision
  | indexError
  | nameError
  | yearOutOfRange
deriving DecidableEq, Repr

instance {e a : Type} [DecidableEq e] [DecidableEq a] : DecidableEq (Except e a) := fun x y =>
  match x, y with
  | .ok v, .ok w =>
    if h : v = w then .isTrue (by rw [h]) else .isFalse (fun hc => h (Except.ok.injEq _ _ ▸ hc))
  | .error v, .error w =>
    if h : v = w then .isTrue (by rw [h]) else .isFalse (fun hc => h (Except.error.injEq _ _ ▸ hc))
  | .ok _, .error _ => .isFalse (fun hc => Except.noConfusion hc)
  | .error _, .ok _ => .isFalse (fun hc => Except.noConfusion hc)

/-- Date models `datetime.date`: a plain (year, month, day) triple.
Arbitrary integers are allowed in the fields; genuine calendar dates
are singled out by `Date.Valid`. -/
structure Date where
  year : Int
  month : Int
  day : Int
deriving DecidableEq, Repr

/-- isLeap embeds the Gregorian leap-year rule used by `datetime.date`:
divisible by 4 and (not by 100 or by 400). -/
def Date.isLeap (y : Int) : Bool :=
  y % 4 = 0 && (y % 100 ≠ 0 || y % 400 = 0)

/-- daysInMonth gives the number of days of a month in the proleptic
Gregorian calendar, as `datetime.date` validates them. -/
def Date.daysInMonth (y m : Int) : Int :=
  if m = 2 then (if Date.isLeap y then 29 else 28)
  else if m = 4 ∨ m = 6 ∨ m = 9 ∨ m = 11 then 30
  else 31

/-- Valid states that the triple is a real `datetime.date`: month in
1..12, day in 1..(length of that month), and year within the hard
1..9999 range (`datetime.MINYEAR`..`datetime.MAXYEAR`) that
`datetime.date` enforces. -/
def Date.Valid (d : Date) : Prop :=
  1 ≤ d.month ∧ d.month ≤ 12 ∧ 1 ≤ d.day ∧ d.day ≤ Date.daysInMonth d.year d.month ∧
    1 ≤ d.year ∧ d.year ≤ 9999

instance (d : Date) : Decidable d.Valid := by
  unfold Date.Valid
  infer_instance

/-- lt embeds Python's `<` on `datetime.date`: lexicographic order on
(year, month, day). -/
def Date.lt (a b : Date) : Prop :=
  a.year < b.year ∨ (a.year = b.year ∧ (a.month < b.month ∨ (a.month = b.month ∧ a.day < b.day)))

instance (a b : Date) : Decidable (a.lt b) := by
  unfold Date.lt
  infer_instance

/-- toDayNumber embeds the day count underlying `datetime.date`
subtraction: the standard civil-calendar day-numbering (days-from-civil)
whose differences are exactly `(b - a).days` in Python. All inner
divisions have positive divisors applied to the code's quantities, so
`Int.fdiv` coincides with Python `//` here. -/
def Date.toDayNumber (dt : Date) : Int :=
  let y : Int := if dt.month ≤ 2 then dt.year - 1 else dt.year
  let era : Int := y.fdiv 400
  let yoe : Int := y - era * 400
  let mp : Int := (dt.month + 9).fmod 12
  let doy : Int := (153 * mp + 2).fdiv 5 + dt.day - 1
  let doe : Int := yoe * 365 + yoe.fdiv 4 - yoe.fdiv 100 + doy
  era * 146097 + doe - 719468

/-- daysBetween embeds Python's `(b - a).days`. -/
def Date.daysBetween (a b : Date) : Int :=
  Date.toDayNumber b - Date.toDayNumber a

/-- addMonths computes the (year, month, day) triple that
`d + dateutil.relativedelta.relativedelta(months=k)` constructs: shift
the zero-based month index by `k` with floor-division year carry, then
clamp the day to the length of the resulting month. The final
`date.replace` raises `ValueError` when the computed year leaves
1..9999; that check is embedded at the call site that performs the
addition (`couponLoop`), so this function only does the arithmetic. -/
def Date.addMonths (dt : Date) (k : Int) : Date :=
  let total : Int := dt.month - 1 + k
  let y : Int := dt.year + total.fdiv 12
  let m : Int := total.fmod 12 + 1
  { year := y, month := m, day := min dt.day (Date.daysInMonth y m) }

/-- monthIndex is the zero-based count of calendar months from month 1
of year 0; it linearizes (year, month) for the loop arguments below. -/
def Date.monthIndex (dt : Date) : Int :=
  dt.year * 12 + (dt.month - 1)

/-- MONTHS_IN_YEAR from `utils.py`. -/
def MONTHS_IN_YEAR : Int := 12

/-- thirty_threesixty embeds `_thirty_threesixty_day_count_factor` from
`utils.py`: the raw 30/360 formula applied after date adjustments. -/
def thirty_threesixty (start end_ : Date) : ℚ :=
  (360 * ((end_.year : ℚ) - start.year) + 30 * ((end_.month : ℚ) - start.month)
    + ((end_.day : ℚ) - start.day)) / 360

/-- day_count_factor embeds `utils.day_count_factor`. Branches by basis:
0 = US (NASD) 30/360 with its two day adjustments, 1 = Actual/Actual
(asserts a supplied next coupon date and a positive frequency, then
divides by `freq * (next_ - start).days` with no zero guard),
2 = Actual/360, 3 = Actual/365, 4 = European 30/360, anything else
raises `ValueError`. -/
def day_count_factor (start end_ : Date) (basis : Int)
    (next_ : Option Date) (freq : Option Int) : Except Err ℚ :=
  if basis = 0 then
    let e := if end_.day = 31 ∧ (start.day = 30 ∨ start.day = 31)
      then { end_ with day := 30 } else end_
    let s := if start.day = 31 then { start with day := 30 } else start
    .ok (thirty_threesixty s e)
  else if basis = 1 then
    match next_ with
    | none => .error .invalidArgument
    | some nd =>
      match freq with
      | none => .error .invalidArgument
      | some q =>
        if q ≤ 0 then .error .invalidArgument
        else if q * Date.daysBetween start nd = 0 then .error .zeroDivision
        else .ok ((Date.daysBetween start end_ : ℚ) / ((q : ℚ) * (Date.daysBetween start nd : ℚ)))
  else if basis = 2 then .ok ((Date.daysBetween start end_ : ℚ) / 360)
  else if basis = 3 then .ok ((Date.daysBetween start end_ : ℚ) / 365)
  else if basis = 4 then
    let s := if start.day = 31 then { start with day := 30 } else start
    let e := if end_.day = 31 then { end_ with day := 30 } else end_
    .ok (thirty_threesixty s e)
  else .error .invalidArgument

/-- nasd30360Spec restates, word for word, the NASD 30/360 computation
asserted by the specification: first set the end day to 30 when it is 31
and the start day is 30 or 31, then set the start day to 30 when it is
31, then apply the 30/360 formula. It is a claim-side definition, to be
compared with the source-derived `day_count_factor` at basis 0. -/
def nasd30360Spec (start end_ : Date) : ℚ :=
  let ed : Int := if end_.day = 31 ∧ (start.day = 30 ∨ start.day = 31) then 30 else end_.day
  let sd : Int := if start.day = 31 then 30 else start.day
  (360 * ((end_.year : ℚ) - start.year) + 30 * ((end_.month : ℚ) - start.month)
    + ((ed : ℚ) - (sd : ℚ))) / 360

/-- accrint embeds `bonds.accrint`: par · rate · day_count_factor. -/
noncomputable def accrint (issue first_interest settlement : Date)
    (rate par : ℝ) (frequency basis : Int) : Except Err ℝ :=
  match day_count_factor issue settlement basis (some first_interest) (some frequency) with
  | .error e => .error e
  | .ok q => .ok (par * rate * (q : ℝ))

/-- couponLoop embeds the `while _coupon_dates[-1] > settlement` loop of
`bonds.coupon_dates` with explicit fuel. The date arguments are kept in
the reversed (already chronological) form: `d` is the most recently
generated (earliest) date, `acc` the later ones in ascending order, so
`d :: acc` is the chronological list the Python code produces after its
final reversal. Each iteration performs the `relativedelta` addition,
whose inner `date.replace` raises `ValueError` when the computed year
leaves the 1..9999 range of `datetime.date` — embedded here as the year
test producing `Err.yearOutOfRange`. `.ok none` means the fuel ran out
with the guard still true. -/
def couponLoop (settlement : Date) (stepMonths : Int) :
    Nat → Date → List Date → Except Err (Option (List Date))
  | 0, d, acc => if Date.lt settlement d then .ok none else .ok (some (d :: acc))
  | fuel + 1, d, acc =>
    if Date.lt settlement d then
      let next := d.addMonths stepMonths
      if next.year < 1 ∨ 9999 < next.year then .error .yearOutOfRange
      else couponLoop settlement stepMonths fuel next (d :: acc)
    else .ok (some (d :: acc))

/-- coupon_dates embeds `bonds.coupon_dates`. The month step is
`-MONTHS_IN_YEAR // frequency` as in the source; `frequency = 0` raises
`ZeroDivisionError` when that step is computed, before any iteration.
`.ok none` means the given fuel did not suffice. -/
def coupon_dates (settlement maturity : Date) (frequency : Int) (fuel : Nat) :
    Except Err (Option (List Date)) :=
  if frequency = 0 then .error .zeroDivision
  else couponLoop settlement ((-MONTHS_IN_YEAR).fdiv frequency) fuel maturity []

/-- price embeds `bonds.price`. The schedule comes from `coupon_dates`;
`num_periods = len(schedule) - 1`; with zero periods the NumPy update
`cash_flows[-1] += redemption` hits an empty array and raises
`IndexError`. Otherwise the cash flows are `100·rate/frequency` with the
redemption added to the last one, the discount factors are
`(1 + yld/frequency) ^ (-(i + time_to_next))` (real power), and the
clean price is the dot product minus the accrued interest. -/
noncomputable def price (settlement maturity : Date) (rate yld redemption : ℝ)
    (frequency : Int) (basis : Int) (fuel : Nat) : Except Err (Option ℝ) :=
  match coupon_dates settlement maturity frequency fuel with
  | .error e => .error e
  | .ok none => .ok none
  | .ok (some sched) =>
    match sched with
    | [] => .error .indexError
    | [_] => .error .indexError
    | d0 :: d1 :: rest =>
      let num_periods := (d0 :: d1 :: rest).length - 1
      let cash_flows : List ℝ :=
        (List.replicate num_periods (100 * rate / (frequency : ℝ))).set
          (num_periods - 1) (100 * rate / (frequency : ℝ) + redemption)
      match day_count_factor d0 settlement basis (some d1) (some frequency) with
      | .error e => .error e
      | .ok dq =>
        let time_to_next : ℝ := 1 - (frequency : ℝ) * (dq : ℝ)
        let discount_rates : List ℝ := List.replicate num_periods (1 + yld / (frequency : ℝ))
        let discount_rate_powers : List ℝ :=
          (List.range num_periods).map (fun i : ℕ => -((i : ℝ) + time_to_next))
        let discount_factors : List ℝ :=
          List.zipWith (fun b e => b ^ e) discount_rates discount_rate_powers
        let transaction_price : ℝ :=
          (List.zipWith (fun a b => a * b) cash_flows discount_factors).sum
        match accrint d0 d1 settlement rate 100 frequency basis with
        | .error e => .error e
        | .ok ai => .ok (some (transaction_price - ai))

/-- YieldMethod describes which computation path `bonds.yield_` takes:
the would-be closed-form single-period branch, or the invocation of
`scipy.optimize.newton` carrying the objective function it is run on
(`func`, the pricing residual `y ↦ price(..., yld=y, ...) - price_`,
fallible like the Python lambda), its seed `x0`, its tolerance and its
iteration cap. -/
inductive YieldMethod where
  | closedForm
  | newtonRootFind (func : ℝ → Except Err (Option ℝ)) (x0 tol : ℝ) (maxiter : Nat)

/-- yield_ embeds `bonds.yield_` up to the numerical root-finding
itself: it takes every parameter of the source function (settlement,
maturity, rate, quoted clean price, redemption, frequency, basis),
generates the coupon schedule and, when the schedule has exactly one
date, enters the special-case branch — which immediately raises
`NameError`, since that branch reads the undefined variables `issue`
and `first_interest`; otherwise it invokes `scipy.optimize.newton`,
embedded as the returned `newtonRootFind` record holding the exact
objective `fun y => price(settlement, maturity, rate, y, redemption,
frequency, basis) - price_`, the seed `x0 = rate`, `tol = 1e-7` and
`maxiter = 100`. -/
noncomputable def yield_ (settlement maturity : Date) (rate price_ redemption : ℝ)
    (frequency : Int) (basis : Int) (fuel : Nat) : Except Err (Option YieldMethod) :=
  match coupon_dates settlement maturity frequency fuel with
  | .error e => .error e
  | .ok none => .ok none
  | .ok (some sched) =>
    if sched.length = 1 then .error .nameError
    else .ok (some (.newtonRootFind
      (fun y =>
        match price settlement maturity rate y redemption frequency basis fuel with
        | .error e => .error e
        | .ok none => .ok none
        | .ok (some p) => .ok (some (p - price_)))
      rate (1 / 10000000) 100))

/-! ### Basic date arithmetic lemmas -/

theorem Date.daysInMonth_bounds (y m : Int) :
    28 ≤ Date.daysInMonth y m ∧ Date.daysInMonth y m ≤ 31 := by
  unfold Date.daysInMonth
  split_ifs <;> omega

theorem Date.monthIndex_addMonths (d : Date) (k : Int) :
    (d.addMonths k).monthIndex = d.monthIndex + k := by
  simp only [Date.addMonths, Date.monthIndex]
  rw [Int.fmod_eq_emod _ (by norm_num : (0:Int) ≤ 12),
    Int.fdiv_eq_ediv _ (by norm_num : (0:Int) ≤ 12)]
  omega

theorem Date.addMonths_month_bounds (d : Date) (k : Int) :
    1 ≤ (d.addMonths k).month ∧ (d.addMonths k).month ≤ 12 := by
  simp only [Date.addMonths]
  rw [Int.fmod_eq_emod _ (by norm_num : (0:Int) ≤ 12)]
  omega

theorem Date.Valid.addMonths {d : Date} (hd : d.Valid) (k : Int)
    (hy1 : 1 ≤ (d.addMonths k).year) (hy2 : (d.addMonths k).year ≤ 9999) :
    (d.addMonths k).Valid := by
  obtain ⟨y, m, dd⟩ := d
  simp only [Date.Valid] at hd
  obtain ⟨hm1, hm2, hd1, hd2, hyv1, hyv2⟩ := hd
  have hb := Date.addMonths_month_bounds ⟨y, m, dd⟩ k
  simp only [Date.addMonths] at hb hy1 hy2
  have hdim := Date.daysInMonth_bounds (y + (m - 1 + k).fdiv 12)
    ((m - 1 + k).fmod 12 + 1)
  simp only [Date.Valid, Date.addMonths]
  refine ⟨hb.1, hb.2, by omega, by omega, hy1, hy2⟩

theorem Date.lt_iff {a b : Date} (ha1 : 1 ≤ a.month) (ha2 : a.month ≤ 12)
    (hb1 : 1 ≤ b.month) (hb2 : b.month ≤ 12) :
    a.lt b ↔ a.monthIndex < b.monthIndex ∨ (a.monthIndex = b.monthIndex ∧ a.day < b.day) := by
  unfold Date.lt Date.monthIndex
  omega

theorem Date.addMonths_zero {d : Date} (hd : d.Valid) : d.addMonths 0 = d := by
  obtain ⟨y, m, dd⟩ := d
  simp only [Date.Valid] at hd
  obtain ⟨hm1, hm2, hd1, hd2, hyv1, hyv2⟩ := hd
  simp only [Date.addMonths]
  have h1 : (m - 1 + 0).fdiv 12 = 0 := by
    rw [Int.fdiv_eq_ediv _ (by norm_num : (0:Int) ≤ 12)]
    omega
  have h2 : (m - 1 + 0).fmod 12 = m - 1 := by
    rw [Int.fmod_eq_emod _ (by norm_num : (0:Int) ≤ 12)]
    omega
  rw [h1, h2]
  have hmm : m - 1 + 1 = m := by ring
  have hyy : y + 0 = y := by ring
  rw [hmm, hyy]
  simp only [Date.mk.injEq]
  refine ⟨trivial, trivial, by omega⟩

theorem Date.addMonths_lt {d : Date} (hd : d.Valid) {k : Int} (hk : k ≤ -1) :
    (d.addMonths k).lt d := by
  have hb := Date.addMonths_month_bounds d k
  rw [Date.lt_iff hb.1 hb.2 hd.1 hd.2.1]
  rw [Date.monthIndex_addMonths]
  omega

theorem Date.lt_addMonths {s d : Date} (hs : s.Valid) (hd : d.Valid) {k : Int}
    (hk : 0 ≤ k) (hlt : s.lt d) : s.lt (d.addMonths k) := by
  rcases lt_or_eq_of_le hk with hk1 | hk0
  · have hb := Date.addMonths_month_bounds d k
    rw [Date.lt_iff hs.1 hs.2.1 hb.1 hb.2]
    rw [Date.monthIndex_addMonths]
    rw [Date.lt_iff hs.1 hs.2.1 hd.1 hd.2.1] at hlt
    omega
  · rw [← hk0, Date.addMonths_zero hd]
    exact hlt


/-! ### Coupon schedule loop lemmas -/

theorem couponLoop_length {s : Date} {step : Int} :
    ∀ (fuel : Nat) (d : Date) (acc l : List Date),
      couponLoop s step fuel d acc = .ok (some l) → acc.length + 1 ≤ l.length := by
  intro fuel
  induction fuel with
  | zero =>
    intro d acc l h
    simp only [couponLoop] at h
    split at h
    · exact absurd h (by simp)
    · injection h with h
      injection h with h
      subst h
      simp
  | succ n ih =>
    intro d acc l h
    simp only [couponLoop] at h
    split at h
    · split at h
      · exact absurd h (by simp)
      · have := ih _ _ _ h
        simp only [List.length_cons] at this
        omega
    · injection h with h
      injection h with h
      subst h
      simp

theorem couponLoop_getLast {s : Date} {step : Int} :
    ∀ (fuel : Nat) (d : Date) (acc l : List Date),
      couponLoop s step fuel d acc = .ok (some l) → l.getLast? = (d :: acc).getLast? := by
  intro fuel
  induction fuel with
  | zero =>
    intro d acc l h
    simp only [couponLoop] at h
    split at h
    · exact absurd h (by simp)
    · injection h with h
      injection h with h
      subst h
      rfl
  | succ n ih =>
    intro d acc l h
    simp only [couponLoop] at h
    split at h
    · split at h
      · exact absurd h (by simp)
      · rw [ih _ _ _ h]
        rfl
    · injection h with h
      injection h with h
      subst h
      rfl

theorem couponLoop_head {s : Date} {step : Int} :
    ∀ (fuel : Nat) (d : Date) (acc l : List Date),
      couponLoop s step fuel d acc = .ok (some l) →
      ∃ h tl, l = h :: tl ∧ ¬ Date.lt s h := by
  intro fuel
  induction fuel with
  | zero =>
    intro d acc l h
    simp only [couponLoop] at h
    split at h
    · exact absurd h (by simp)
    · injection h with h
      injection h with h
      exact ⟨d, acc, h.symm, by assumption⟩
  | succ n ih =>
    intro d acc l h
    simp only [couponLoop] at h
    split at h
    · split at h
      · exact absurd h (by simp)
      · exact ih _ _ _ h
    · injection h with h
      injection h with h
      exact ⟨d, acc, h.symm, by assumption⟩

theorem couponLoop_tail_gt {s : Date} {step : Int} :
    ∀ (fuel : Nat) (d : Date) (acc l : List Date),
      (∀ x ∈ acc, Date.lt s x) → couponLoop s step fuel d acc = .ok (some l) →
      ∀ hd tl, l = hd :: tl → ∀ x ∈ tl, Date.lt s x := by
  intro fuel
  induction fuel with
  | zero =>
    intro d acc l hacc h hd tl hl x hx
    simp only [couponLoop] at h
    split at h
    · exact absurd h (by simp)
    · injection h with h
      injection h with h
      rw [← h] at hl
      injection hl with h1 h2
      subst h2
      exact hacc x hx
  | succ n ih =>
    intro d acc l hacc h hd tl hl x hx
    simp only [couponLoop] at h
    split at h
    · split at h
      · exact absurd h (by simp)
      · refine ih _ _ _ ?_ h hd tl hl x hx
        intro z hz
        rcases List.mem_cons.mp hz with rfl | hz'
        · assumption
        · exact hacc z hz'
    · injection h with h
      injection h with h
      rw [← h] at hl
      injection hl with h1 h2
      subst h2
      exact hacc x hx

theorem couponLoop_chain {s : Date} {step : Int} :
    ∀ (fuel : Nat) (d : Date) (acc l : List Date),
      List.Chain' (fun a b => a = Date.addMonths b step) (d :: acc) →
      couponLoop s step fuel d acc = .ok (some l) →
      List.Chain' (fun a b => a = Date.addMonths b step) l := by
  intro fuel
  induction fuel with
  | zero =>
    intro d acc l hacc h
    simp only [couponLoop] at h
    split at h
    · exact absurd h (by simp)
    · injection h with h
      injection h with h
      rw [← h]
      exact hacc
  | succ n ih =>
    intro d acc l hacc h
    simp only [couponLoop] at h
    split at h
    · split at h
      · exact absurd h (by simp)
      · exact ih _ _ _ (List.chain'_cons.mpr ⟨rfl, hacc⟩) h
    · injection h with h
      injection h with h
      rw [← h]
      exact hacc

theorem couponLoop_valid {s : Date} {step : Int} :
    ∀ (fuel : Nat) (d : Date) (acc l : List Date),
      d.Valid → (∀ x ∈ acc, x.Valid) → couponLoop s step fuel d acc = .ok (some l) →
      ∀ x ∈ l, x.Valid := by
  intro fuel
  induction fuel with
  | zero =>
    intro d acc l hd hacc h x hx
    simp only [couponLoop] at h
    split at h
    · exact absurd h (by simp)
    · injection h with h
      injection h with h
      rw [← h] at hx
      rcases List.mem_cons.mp hx with rfl | hx'
      · exact hd
      · exact hacc x hx'
  | succ n ih =>
    intro d acc l hd hacc h x hx
    simp only [couponLoop] at h
    split at h
    · split at h
      · exact absurd h (by simp)
      · rename_i hy
        push_neg at hy
        refine ih _ _ _ (hd.addMonths step hy.1 hy.2) ?_ h x hx
        intro z hz
        rcases List.mem_cons.mp hz with rfl | hz'
        · exact hd
        · exact hacc z hz'
    · injection h with h
      injection h with h
      rw [← h] at hx
      rcases List.mem_cons.mp hx with rfl | hx'
      · exact hd
      · exact hacc x hx'

theorem couponLoop_two_le_length {s : Date} {step : Int} {fuel : Nat} {d : Date}
    {acc l : List Date} (hgt : Date.lt s d)
    (h : couponLoop s step fuel d acc = .ok (some l)) : acc.length + 2 ≤ l.length := by
  cases fuel with
  | zero =>
    simp only [couponLoop] at h
    rw [if_pos hgt] at h
    exact absurd h (by simp)
  | succ n =>
    simp only [couponLoop] at h
    rw [if_pos hgt] at h
    split at h
    · exact absurd h (by simp)
    · have := couponLoop_length _ _ _ _ h
      simp only [List.length_cons] at this
      omega

theorem couponLoop_reaches {s : Date} {step : Int} (hs : s.Valid) (hstep : step ≤ -1) :
    ∀ (fuel : Nat) (d : Date) (acc : List Date), d.Valid →
      (d.monthIndex - s.monthIndex + 1).toNat ≤ fuel →
      couponLoop s step fuel d acc ≠ .ok none := by
  intro fuel
  induction fuel with
  | zero =>
    intro d acc hd hfuel
    have hnot : ¬ Date.lt s d := by
      rw [Date.lt_iff hs.1 hs.2.1 hd.1 hd.2.1]
      omega
    simp only [couponLoop]
    rw [if_neg hnot]
    simp
  | succ n ih =>
    intro d acc hd hfuel
    by_cases hgt : Date.lt s d
    · simp only [couponLoop]
      rw [if_pos hgt]
      by_cases hy : (d.addMonths step).year < 1 ∨ 9999 < (d.addMonths step).year
      · rw [if_pos hy]
        simp
      · rw [if_neg hy]
        push_neg at hy
        have hmi : s.monthIndex ≤ d.monthIndex := by
          rw [Date.lt_iff hs.1 hs.2.1 hd.1 hd.2.1] at hgt
          omega
        refine ih _ (d :: acc) (hd.addMonths step hy.1 hy.2) ?_
        rw [Date.monthIndex_addMonths]
        omega
    · simp only [couponLoop]
      rw [if_neg hgt]
      simp

theorem couponLoop_step_zero {s : Date} :
    ∀ (fuel : Nat) (d : Date) (acc : List Date), d.Valid → Date.lt s d →
      couponLoop s 0 fuel d acc = .ok none := by
  intro fuel
  induction fuel with
  | zero =>
    intro d acc hd hgt
    simp only [couponLoop]
    rw [if_pos hgt]
  | succ n ih =>
    intro d acc hd hgt
    simp only [couponLoop]
    rw [if_pos hgt]
    rw [Date.addMonths_zero hd]
    rw [if_neg (by
      have hdv := hd
      simp only [Date.Valid] at hdv
      omega)]
    exact ih d (d :: acc) hd hgt

theorem couponLoop_pos_overflow {s : Date} {step : Int} (hs : s.Valid) (hstep : 1 ≤ step) :
    ∀ (n : Nat) (d : Date) (acc : List Date), d.Valid → Date.lt s d →
      (119999 - d.monthIndex).toNat ≤ n →
      ∃ fuel, couponLoop s step fuel d acc = .error .yearOutOfRange := by
  intro n
  induction n with
  | zero =>
    intro d acc hd hgt hn
    have hover : 9999 < (d.addMonths step).year := by
      have hb := Date.addMonths_month_bounds d step
      have hmi := Date.monthIndex_addMonths d step
      have hdv := hd
      simp only [Date.Valid] at hdv
      simp only [Date.monthIndex] at hmi hn
      omega
    refine ⟨1, ?_⟩
    simp only [couponLoop]
    rw [if_pos hgt, if_pos (Or.inr hover)]
  | succ k ih =>
    intro d acc hd hgt hn
    by_cases hy : (d.addMonths step).year < 1 ∨ 9999 < (d.addMonths step).year
    · refine ⟨1, ?_⟩
      simp only [couponLoop]
      rw [if_pos hgt, if_pos hy]
    · push_neg at hy
      have hnv : (d.addMonths step).Valid := hd.addMonths step hy.1 hy.2
      have hgt2 : Date.lt s (d.addMonths step) := by
        rw [Date.lt_iff hs.1 hs.2.1 hnv.1 hnv.2.1]
        rw [Date.monthIndex_addMonths]
        rw [Date.lt_iff hs.1 hs.2.1 hd.1 hd.2.1] at hgt
        omega
      obtain ⟨fuel, hf⟩ := ih (d.addMonths step) (d :: acc) hnv hgt2 (by
        rw [Date.monthIndex_addMonths]
        omega)
      refine ⟨fuel + 1, ?_⟩
      simp only [couponLoop]
      rw [if_pos hgt, if_neg (by omega)]
      exact hf

/-! ### Step-size lemmas and schedule ordering -/

theorem neg_twelve_fdiv_le {f : Int} (hf : 1 ≤ f) : (-MONTHS_IN_YEAR).fdiv f ≤ -1 := by
  show (-12 : Int).fdiv f ≤ -1
  rw [Int.fdiv_eq_ediv _ (by omega : (0:Int) ≤ f)]
  have := Int.ediv_neg' (show (-12 : Int) < 0 by norm_num) (show (0:Int) < f by omega)
  omega

theorem neg_twelve_fdiv_negSucc (n : Nat) :
    (-MONTHS_IN_YEAR).fdiv (Int.negSucc n) = Int.ofNat (12 / (n + 1)) := rfl

theorem neg_twelve_fdiv_eq_zero {f : Int} (hf : f ≤ -13) : (-MONTHS_IN_YEAR).fdiv f = 0 := by
  obtain ⟨n, rfl⟩ : ∃ n : Nat, f = Int.negSucc n :=
    ⟨(-f - 1).toNat, by rw [Int.negSucc_eq]; omega⟩
  rw [neg_twelve_fdiv_negSucc]
  have hn : 12 ≤ n := by
    rw [Int.negSucc_eq] at hf
    omega
  rw [Nat.div_eq_of_lt (by omega)]
  rfl

theorem neg_twelve_fdiv_pos {f : Int} (h1 : -12 ≤ f) (h2 : f ≤ -1) :
    1 ≤ (-MONTHS_IN_YEAR).fdiv f := by
  obtain ⟨n, rfl⟩ : ∃ n : Nat, f = Int.negSucc n :=
    ⟨(-f - 1).toNat, by rw [Int.negSucc_eq]; omega⟩
  rw [neg_twelve_fdiv_negSucc]
  have hn : n ≤ 11 := by
    rw [Int.negSucc_eq] at h1
    omega
  have hdiv : 1 ≤ 12 / (n + 1) := (Nat.one_le_div_iff (by omega)).mpr (by omega)
  exact Int.ofNat_le.mpr hdiv

theorem neg_twelve_fdiv_of_dvd {f : Int} (hf : 0 < f) (hdvd : f ∣ 12) :
    (-MONTHS_IN_YEAR).fdiv f = -(12 / f) := by
  show (-12 : Int).fdiv f = -(12 / f)
  rw [Int.fdiv_eq_ediv _ (by omega : (0:Int) ≤ f)]
  obtain ⟨c, hc⟩ := hdvd
  rw [hc]
  rw [show (-(f * c) : Int) = f * (-c) by ring]
  rw [Int.mul_ediv_cancel_left _ (by omega : f ≠ 0),
    Int.mul_ediv_cancel_left _ (by omega : f ≠ 0)]

instance : IsTrans Date Date.lt := by
  constructor
  intro a b c h1 h2
  unfold Date.lt at *
  omega

theorem chain_lt_of_chain_step {step : Int} (hstep : step ≤ -1) :
    ∀ l : List Date, (∀ x ∈ l, Date.Valid x) →
      List.Chain' (fun a b => a = Date.addMonths b step) l →
      List.Chain' Date.lt l := by
  intro l
  induction l with
  | nil => intro _ _; exact List.chain'_nil
  | cons a t ih =>
    intro hv hc
    cases t with
    | nil => exact List.chain'_singleton a
    | cons b t2 =>
      rw [List.chain'_cons] at hc ⊢
      refine ⟨?_, ih (fun x hx => hv x (List.mem_cons_of_mem a hx)) hc.2⟩
      rw [hc.1]
      exact Date.addMonths_lt (hv b (by simp)) hstep

/-! ### Claim C6: coupon schedule shape -/

/-- C6: for every valid settlement < maturity and positive frequency
dividing 12, the schedule returned by `coupon_dates` is strictly
ascending, its last element is the maturity date, its first element is
at or before settlement, and each date is obtained from the next one by
stepping back exactly one coupon period of 12/frequency calendar
months. -/
theorem coupon_dates_schedule_sound
    (s m : Date) (f : Int) (fuel : Nat) (sched : List Date)
    (hs : s.Valid) (hm : m.Valid) (hlt : Date.lt s m) (hf : 0 < f) (hdvd : f ∣ 12)
    (hrun : coupon_dates s m f fuel = .ok (some sched)) :
    List.Pairwise Date.lt sched ∧
    sched.getLast? = some m ∧
    (∃ d0 tl, sched = d0 :: tl ∧ ¬ Date.lt s d0) ∧
    List.Chain' (fun a b => a = Date.addMonths b (-(12 / f))) sched := by
  unfold coupon_dates at hrun
  rw [if_neg (by omega : ¬ f = 0)] at hrun
  have hstep : (-MONTHS_IN_YEAR).fdiv f ≤ -1 := neg_twelve_fdiv_le (by omega)
  have hvalid : ∀ x ∈ sched, x.Valid :=
    couponLoop_valid _ _ _ _ hm (by intro x hx; exact absurd hx (List.not_mem_nil x)) hrun
  have hchain : List.Chain' (fun a b => a = Date.addMonths b ((-MONTHS_IN_YEAR).fdiv f)) sched :=
    couponLoop_chain _ _ _ _ (List.chain'_singleton m) hrun
  refine ⟨?_, ?_, ?_, ?_⟩
  · rw [← List.chain'_iff_pairwise]
    exact chain_lt_of_chain_step hstep sched hvalid hchain
  · rw [couponLoop_getLast _ _ _ _ hrun]
    rfl
  · obtain ⟨h, tl, hl, hh⟩ := couponLoop_head _ _ _ _ hrun
    exact ⟨h, tl, hl, hh⟩
  · rw [← neg_twelve_fdiv_of_dvd hf hdvd]
    exact hchain

/-- C6 witness: the spec's own example, settlement 2020-01-15, maturity
2022-01-15, frequency 2, whose schedule is the five semiannual dates
from 2020-01-15 to 2022-01-15. -/
theorem coupon_dates_schedule_sound_witness :
    coupon_dates ⟨2020,1,15⟩ ⟨2022,1,15⟩ 2 10 =
      .ok (some [⟨2020,1,15⟩, ⟨2020,7,15⟩, ⟨2021,1,15⟩, ⟨2021,7,15⟩, ⟨2022,1,15⟩]) ∧
    (List.Pairwise Date.lt [⟨2020,1,15⟩, ⟨2020,7,15⟩, ⟨2021,1,15⟩, ⟨2021,7,15⟩, ⟨2022,1,15⟩] ∧
      ([⟨2020,1,15⟩, ⟨2020,7,15⟩, ⟨2021,1,15⟩, ⟨2021,7,15⟩, (⟨2022,1,15⟩ : Date)] : List Date).getLast? = some ⟨2022,1,15⟩ ∧
      (∃ d0 tl, ([⟨2020,1,15⟩, ⟨2020,7,15⟩, ⟨2021,1,15⟩, ⟨2021,7,15⟩, (⟨2022,1,15⟩ : Date)] : List Date) = d0 :: tl ∧
        ¬ Date.lt ⟨2020,1,15⟩ d0) ∧
      List.Chain' (fun a b => a = Date.addMonths b (-(12 / 2)))
        [⟨2020,1,15⟩, ⟨2020,7,15⟩, ⟨2021,1,15⟩, ⟨2021,7,15⟩, ⟨2022,1,15⟩]) :=
  ⟨by decide, coupon_dates_schedule_sound ⟨2020,1,15⟩ ⟨2022,1,15⟩ 2 10
    [⟨2020,1,15⟩, ⟨2020,7,15⟩, ⟨2021,1,15⟩, ⟨2021,7,15⟩, ⟨2022,1,15⟩]
    (by decide) (by decide) (by decide) (by norm_num) (by norm_num) (by decide)⟩

/-! ### Claims C9 and C4: frequency handling and termination -/

/-- C9 amended: `coupon_dates` terminates for every positive frequency,
producing either a schedule or the year-range `ValueError` of
`datetime.date` if a backward step leaves years 1..9999; for frequency
0 it raises `ZeroDivisionError` when computing the month step, before
any loop iteration; for negative frequency with settlement < maturity
the month step `-12 // frequency` is non-negative, and the loop either
never terminates (step 0, frequency ≤ -13) or steps the dates forward
until the year-9999 bound raises `ValueError` (step ≥ 1 month,
-12 ≤ frequency ≤ -1). -/
theorem coupon_dates_termination (s m : Date) (f : Int) (hs : s.Valid) (hm : m.Valid) :
    (1 ≤ f → ∃ fuel, coupon_dates s m f fuel ≠ .ok none) ∧
    (f = 0 → ∀ fuel, coupon_dates s m f fuel = .error .zeroDivision) ∧
    (f ≤ -13 → Date.lt s m →
      (-MONTHS_IN_YEAR).fdiv f = 0 ∧ ∀ fuel, coupon_dates s m f fuel = .ok none) ∧
    (-12 ≤ f → f ≤ -1 → Date.lt s m →
      1 ≤ (-MONTHS_IN_YEAR).fdiv f ∧
      ∃ fuel, coupon_dates s m f fuel = .error .yearOutOfRange) := by
  refine ⟨?_, ?_, ?_, ?_⟩
  · intro hf
    refine ⟨(m.monthIndex - s.monthIndex + 1).toNat, ?_⟩
    unfold coupon_dates
    rw [if_neg (by omega : ¬ f = 0)]
    exact couponLoop_reaches hs (neg_twelve_fdiv_le hf) _ m [] hm (le_refl _)
  · intro hf fuel
    unfold coupon_dates
    rw [if_pos hf]
  · intro hf hlt
    have hz := neg_twelve_fdiv_eq_zero hf
    refine ⟨hz, fun fuel => ?_⟩
    unfold coupon_dates
    rw [if_neg (by omega : ¬ f = 0), hz]
    exact couponLoop_step_zero fuel m [] hm hlt
  · intro hf1 hf2 hlt
    have hp := neg_twelve_fdiv_pos hf1 hf2
    refine ⟨hp, ?_⟩
    obtain ⟨fuel, hfu⟩ := couponLoop_pos_overflow hs hp
      (119999 - m.monthIndex).toNat m [] hm hlt (le_refl _)
    refine ⟨fuel, ?_⟩
    unfold coupon_dates
    rw [if_neg (by omega : ¬ f = 0)]
    exact hfu

/-- C9 counterexample: frequency -1 with settlement 9998-01-15 <
maturity 9998-07-15 makes the loop hit the year-9999 bound after two
forward steps and raise the year-range `ValueError`, so the loop does
terminate on a negative frequency, against the claim. -/
theorem coupon_dates_neg_freq_counterexample :
    coupon_dates ⟨9998,1,15⟩ ⟨9998,7,15⟩ (-1) 5 = .error .yearOutOfRange ∧
    (Except.error Err.yearOutOfRange : Except Err (Option (List Date))) ≠ .ok none := by
  exact ⟨by decide, by decide⟩

/-- C9 witness: positive frequency 2 terminates on a 2020 bond;
frequency 0 divides by zero; frequency -13 gives a zero month step and
exhausts every fuel bound; frequency -1 near the year bound steps
forward into the year-range `ValueError`. -/
theorem coupon_dates_termination_witness :
    (∃ fuel, coupon_dates ⟨2020,1,15⟩ ⟨2022,1,15⟩ 2 fuel ≠ .ok none) ∧
    (∀ fuel, coupon_dates ⟨2020,1,15⟩ ⟨2022,1,15⟩ 0 fuel = .error .zeroDivision) ∧
    ((-MONTHS_IN_YEAR).fdiv (-13) = 0 ∧
      ∀ fuel, coupon_dates ⟨2020,1,15⟩ ⟨2022,1,15⟩ (-13) fuel = .ok none) ∧
    (1 ≤ (-MONTHS_IN_YEAR).fdiv (-1) ∧
      ∃ fuel, coupon_dates ⟨9998,1,15⟩ ⟨9998,7,15⟩ (-1) fuel = .error .yearOutOfRange) := by
  refine ⟨?_, ?_, ?_, ?_⟩
  · exact (coupon_dates_termination ⟨2020,1,15⟩ ⟨2022,1,15⟩ 2
      (by decide) (by decide)).1 (by norm_num)
  · exact (coupon_dates_termination ⟨2020,1,15⟩ ⟨2022,1,15⟩ 0
      (by decide) (by decide)).2.1 rfl
  · exact (coupon_dates_termination ⟨2020,1,15⟩ ⟨2022,1,15⟩ (-13)
      (by decide) (by decide)).2.2.1 (by norm_num) (by decide)
  · exact (coupon_dates_termination ⟨9998,1,15⟩ ⟨9998,7,15⟩ (-1)
      (by decide) (by decide)).2.2.2 (by norm_num) (by norm_num) (by decide)

/-- C4 counterexample: at frequency 0 (which is ≤ 0), `coupon_dates`
fails with `ZeroDivisionError`, not with the `InvalidArgument` class the
claim asserts. -/
theorem coupon_dates_zero_freq_counterexample :
    coupon_dates ⟨2020,1,15⟩ ⟨2022,1,15⟩ 0 100 = .error .zeroDivision ∧
    Err.zeroDivision ≠ Err.invalidArgument := by
  exact ⟨rfl, by decide⟩

/-- C4 amended: `coupon_dates` performs no frequency validation at all
and never raises `InvalidArgument`. For frequency 0 it raises
`ZeroDivisionError`; for negative frequency with settlement ≥ maturity
it returns the one-element schedule `[maturity]`; for negative
frequency with settlement < maturity the loop never terminates when the
month step `-12 // frequency` is 0 (frequency ≤ -13), and steps the
dates forward into the year-range `ValueError` of `datetime.date` when
the step is ≥ 1 month (-12 ≤ frequency ≤ -1). -/
theorem coupon_dates_no_validation (s m : Date) (f : Int) (hs : s.Valid) (hm : m.Valid) :
    (f = 0 → ∀ fuel, coupon_dates s m f fuel = .error .zeroDivision) ∧
    (f ≤ -1 → ¬ Date.lt s m → ∀ fuel, coupon_dates s m f fuel = .ok (some [m])) ∧
    (f ≤ -13 → Date.lt s m → ∀ fuel, coupon_dates s m f fuel = .ok none) ∧
    (-12 ≤ f → f ≤ -1 → Date.lt s m →
      ∃ fuel, coupon_dates s m f fuel = .error .yearOutOfRange) := by
  refine ⟨?_, ?_, ?_, ?_⟩
  · intro hf fuel
    unfold coupon_dates
    rw [if_pos hf]
  · intro hf hnlt fuel
    unfold coupon_dates
    rw [if_neg (by omega : ¬ f = 0)]
    cases fuel with
    | zero => simp only [couponLoop]; rw [if_neg hnlt]
    | succ n => simp only [couponLoop]; rw [if_neg hnlt]
  · intro hf hlt fuel
    unfold coupon_dates
    rw [if_neg (by omega : ¬ f = 0), neg_twelve_fdiv_eq_zero hf]
    exact couponLoop_step_zero fuel m [] hm hlt
  · intro hf1 hf2 hlt
    obtain ⟨fuel, hfu⟩ := couponLoop_pos_overflow hs (neg_twelve_fdiv_pos hf1 hf2)
      (119999 - m.monthIndex).toNat m [] hm hlt (le_refl _)
    refine ⟨fuel, ?_⟩
    unfold coupon_dates
    rw [if_neg (by omega : ¬ f = 0)]
    exact hfu

/-- C4 amended witness: frequency 0 divides by zero; frequency -1 with
settlement past maturity returns `[maturity]` with no error; frequency
-20 with settlement < maturity exhausts every fuel bound; frequency
-12 near the year bound raises the year-range `ValueError`. -/
theorem coupon_dates_no_validation_witness :
    (∀ fuel, coupon_dates ⟨2023,5,1⟩ ⟨2022,1,15⟩ 0 fuel = .error .zeroDivision) ∧
    (∀ fuel, coupon_dates ⟨2023,5,1⟩ ⟨2022,1,15⟩ (-1) fuel = .ok (some [⟨2022,1,15⟩])) ∧
    (∀ fuel, coupon_dates ⟨2020,1,15⟩ ⟨2022,1,15⟩ (-20) fuel = .ok none) ∧
    (∃ fuel, coupon_dates ⟨9998,1,15⟩ ⟨9998,7,15⟩ (-12) fuel = .error .yearOutOfRange) := by
  refine ⟨?_, ?_, ?_, ?_⟩
  · exact (coupon_dates_no_validation ⟨2023,5,1⟩ ⟨2022,1,15⟩ 0
      (by decide) (by decide)).1 rfl
  · exact (coupon_dates_no_validation ⟨2023,5,1⟩ ⟨2022,1,15⟩ (-1)
      (by decide) (by decide)).2.1 (by norm_num) (by decide)
  · exact (coupon_dates_no_validation ⟨2020,1,15⟩ ⟨2022,1,15⟩ (-20)
      (by decide) (by decide)).2.2.1 (by norm_num) (by decide)
  · exact (coupon_dates_no_validation ⟨9998,1,15⟩ ⟨9998,7,15⟩ (-12)
      (by decide) (by decide)).2.2.2 (by norm_num) (by norm_num) (by decide)

/-! ### Day-number arithmetic: floor-division bridges -/

theorem fdiv_twelve (a : Int) : a.fdiv 12 = a / 12 := Int.fdiv_eq_ediv a (by norm_num)

theorem fmod_twelve (a : Int) : a.fmod 12 = a % 12 := Int.fmod_eq_emod a (by norm_num)

theorem fdiv_four (a : Int) : a.fdiv 4 = a / 4 := Int.fdiv_eq_ediv a (by norm_num)

theorem fdiv_five (a : Int) : a.fdiv 5 = a / 5 := Int.fdiv_eq_ediv a (by norm_num)

theorem fdiv_hundred (a : Int) : a.fdiv 100 = a / 100 := Int.fdiv_eq_ediv a (by norm_num)

theorem fdiv_fourhundred (a : Int) : a.fdiv 400 = a / 400 := Int.fdiv_eq_ediv a (by norm_num)

/-- startOfMonthIndex is the first day of the month with the given
zero-based month index; a reference point for day-number reasoning. -/
def Date.startOfMonthIndex (k : Int) : Date :=
  { year := k.fdiv 12, month := k.fmod 12 + 1, day := 1 }

theorem Date.monthIndex_fdiv {d : Date} (hm1 : 1 ≤ d.month) (hm2 : d.month ≤ 12) :
    d.monthIndex.fdiv 12 = d.year := by
  rw [fdiv_twelve]
  unfold Date.monthIndex
  omega

theorem Date.monthIndex_fmod {d : Date} (hm1 : 1 ≤ d.month) (hm2 : d.month ≤ 12) :
    d.monthIndex.fmod 12 = d.month - 1 := by
  rw [fmod_twelve]
  unfold Date.monthIndex
  omega

theorem Date.toDayNumber_eq_som {d : Date} (hm1 : 1 ≤ d.month) (hm2 : d.month ≤ 12) :
    d.toDayNumber = (Date.startOfMonthIndex d.monthIndex).toDayNumber + (d.day - 1) := by
  unfold Date.startOfMonthIndex
  rw [Date.monthIndex_fdiv hm1 hm2, Date.monthIndex_fmod hm1 hm2]
  simp only [Date.toDayNumber]
  have hmm : d.month - 1 + 1 = d.month := by ring
  rw [hmm]
  split_ifs <;> omega

set_option maxHeartbeats 2000000 in
theorem som_succ (k : Int) :
    (Date.startOfMonthIndex (k + 1)).toDayNumber =
    (Date.startOfMonthIndex k).toDayNumber +
      Date.daysInMonth (k.fdiv 12) (k.fmod 12 + 1) := by
  simp only [Date.startOfMonthIndex, Date.toDayNumber, Date.daysInMonth, Date.isLeap,
    fdiv_twelve, fmod_twelve, fdiv_four, fdiv_five, fdiv_hundred, fdiv_fourhundred,
    Bool.and_eq_true, Bool.or_eq_true, decide_eq_true_eq, bne_iff_ne, ne_eq]
  have h12 : k % 12 = 0 ∨ k % 12 = 1 ∨ k % 12 = 2 ∨ k % 12 = 3 ∨ k % 12 = 4 ∨
      k % 12 = 5 ∨ k % 12 = 6 ∨ k % 12 = 7 ∨ k % 12 = 8 ∨ k % 12 = 9 ∨
      k % 12 = 10 ∨ k % 12 = 11 := by omega
  rcases h12 with h|h|h|h|h|h|h|h|h|h|h|h <;> split_ifs <;> omega

theorem som_mono {k k' : Int} (h : k ≤ k') :
    (Date.startOfMonthIndex k).toDayNumber ≤ (Date.startOfMonthIndex k').toDayNumber := by
  obtain ⟨n, rfl⟩ : ∃ n : Nat, k' = k + n := ⟨(k' - k).toNat, by omega⟩
  clear h
  induction n with
  | zero => simp
  | succ i ih =>
    have hstep := som_succ (k + i)
    have hdim := Date.daysInMonth_bounds ((k + (i : Int)).fdiv 12) ((k + (i : Int)).fmod 12 + 1)
    have hcast : k + ((i : Nat) + 1 : Nat) = (k + (i : Int)) + 1 := by push_cast; ring
    rw [hcast]
    omega

theorem som_succ_le {k k' : Int} (h : k < k') :
    (Date.startOfMonthIndex (k + 1)).toDayNumber ≤ (Date.startOfMonthIndex k').toDayNumber :=
  som_mono (by omega)

theorem Date.toDayNumber_lt {a b : Date} (ha : a.Valid) (hb : b.Valid) (h : a.lt b) :
    a.toDayNumber < b.toDayNumber := by
  obtain ⟨ham1, ham2, had1, had2, hay1, hay2⟩ := ha
  obtain ⟨hbm1, hbm2, hbd1, hbd2, hby1, hby2⟩ := hb
  rw [Date.toDayNumber_eq_som ham1 ham2, Date.toDayNumber_eq_som hbm1 hbm2]
  rw [Date.lt_iff ham1 ham2 hbm1 hbm2] at h
  rcases h with hmi | ⟨hmi, hday⟩
  · have hadj := som_succ a.monthIndex
    rw [Date.monthIndex_fdiv ham1 ham2, Date.monthIndex_fmod ham1 ham2] at hadj
    have hmm : a.month - 1 + 1 = a.month := by ring
    rw [hmm] at hadj
    have hle := som_succ_le hmi
    omega
  · rw [hmi]
    omega

theorem Date.eq_of_not_lt {a b : Date} (h1 : ¬ a.lt b) (h2 : ¬ b.lt a) : a = b := by
  obtain ⟨ay, am, ad⟩ := a
  obtain ⟨By, Bm, Bd⟩ := b
  simp only [Date.lt] at h1 h2
  simp only [Date.mk.injEq]
  omega

theorem Date.toDayNumber_ne {a b : Date} (ha : a.Valid) (hb : b.Valid) (hne : a ≠ b) :
    a.toDayNumber ≠ b.toDayNumber := by
  by_cases h1 : a.lt b
  · exact ne_of_lt (Date.toDayNumber_lt ha hb h1)
  · by_cases h2 : b.lt a
    · exact (ne_of_lt (Date.toDayNumber_lt hb ha h2)).symm
    · exact absurd (Date.eq_of_not_lt h1 h2) hne

theorem Date.daysBetween_pos {a b : Date} (ha : a.Valid) (hb : b.Valid) (h : a.lt b) :
    0 < Date.daysBetween a b := by
  unfold Date.daysBetween
  have := Date.toDayNumber_lt ha hb h
  omega

/-! ### Claims C5, C8, C10: day count factor values -/

theorem dcf_nasd_eval (start end_ : Date) (o : Option Date) (f : Option Int) :
    day_count_factor start end_ 0 o f = .ok (nasd30360Spec start end_) := by
  unfold day_count_factor nasd30360Spec thirty_threesixty
  rw [if_pos rfl]
  simp only [Except.ok.injEq]
  split_ifs <;> push_cast <;> ring

/-- C5: under basis NASD_30_360 (basis 0), `day_count_factor` computes
exactly the spec's adjusted 30/360 formula: end day set to 30 when it is
31 and the start day is 30 or 31, then start day set to 30 when it is
31, then (360·Δyear + 30·Δmonth + Δday)/360. The optional arguments are
ignored on this branch. -/
theorem day_count_factor_nasd (start end_ : Date) (o : Option Date) (f : Option Int) :
    day_count_factor start end_ 0 o f = .ok (nasd30360Spec start end_) :=
  dcf_nasd_eval start end_ o f

/-- C8: for every valid date d and every supported basis — supplying,
for Actual/Actual, a next coupon date different from d and a positive
frequency — the day count factor from d to d is 0. -/
theorem day_count_factor_same_date (d nd : Date) (q : Int) (o : Option Date) (f : Option Int)
    (hd : d.Valid) (hnd : nd.Valid) (hne : nd ≠ d) (hq : 0 < q) :
    (∀ b : Int, b = 0 ∨ b = 2 ∨ b = 3 ∨ b = 4 → day_count_factor d d b o f = .ok 0) ∧
    day_count_factor d d 1 (some nd) (some q) = .ok 0 := by
  constructor
  · intro b hb
    rcases hb with rfl | rfl | rfl | rfl
    · rw [dcf_nasd_eval]
      unfold nasd30360Spec
      simp only [Except.ok.injEq]
      split_ifs <;> first | (push_cast; ring1) | (exfalso; omega)
    · unfold day_count_factor
      rw [if_neg (by norm_num), if_neg (by norm_num), if_pos rfl]
      simp [Date.daysBetween]
    · unfold day_count_factor
      rw [if_neg (by norm_num), if_neg (by norm_num), if_neg (by norm_num), if_pos rfl]
      simp [Date.daysBetween]
    · unfold day_count_factor
      rw [if_neg (by norm_num), if_neg (by norm_num), if_neg (by norm_num),
        if_neg (by norm_num), if_pos rfl]
      simp only [Except.ok.injEq]
      unfold thirty_threesixty
      split_ifs <;> first | (push_cast; ring1) | (exfalso; omega)
  · unfold day_count_factor
    rw [if_neg (by norm_num), if_pos rfl]
    dsimp only
    have hdays : Date.daysBetween d nd ≠ 0 := by
      unfold Date.daysBetween
      have := Date.toDayNumber_ne hnd hd hne
      omega
    rw [if_neg (by omega : ¬ q ≤ 0), if_neg (by
      intro hc
      rcases mul_eq_zero.mp hc with h | h
      · omega
      · exact hdays h)]
    simp only [Except.ok.injEq]
    have hz : Date.daysBetween d d = 0 := by
      unfold Date.daysBetween
      omega
    rw [hz]
    norm_num

/-- C8 witness: instantiated at d = 2020-06-15 with next coupon date
2020-12-15 and frequency 2; every basis yields factor 0. -/
theorem day_count_factor_same_date_witness :
    (∀ b : Int, b = 0 ∨ b = 2 ∨ b = 3 ∨ b = 4 →
      day_count_factor ⟨2020,6,15⟩ ⟨2020,6,15⟩ b none none = .ok 0) ∧
    day_count_factor ⟨2020,6,15⟩ ⟨2020,6,15⟩ 1 (some ⟨2020,12,15⟩) (some 2) = .ok 0 :=
  day_count_factor_same_date ⟨2020,6,15⟩ ⟨2020,12,15⟩ 2 none none
    (by decide) (by decide) (by decide) (by norm_num)

/-- C10: the Actual/Actual division is unguarded: whenever the supplied
next coupon date equals the start date (so `(next_ - start).days` is 0)
and the asserts pass (positive frequency), `day_count_factor` fails with
`ZeroDivisionError` — not with a value and not with `InvalidArgument`. -/
theorem day_count_factor_next_eq_start (start end_ nd : Date) (q : Int)
    (hnd : nd = start) (hq : 0 < q) :
    day_count_factor start end_ 1 (some nd) (some q) = .error .zeroDivision := by
  rw [hnd]
  unfold day_count_factor
  rw [if_neg (by norm_num), if_pos rfl]
  dsimp only
  rw [if_neg (by omega : ¬ q ≤ 0), if_pos (by unfold Date.daysBetween; ring1)]

/-- C10 witness: start = end = next = 2021-03-01 with frequency 2
produces the division-by-zero failure. -/
theorem day_count_factor_next_eq_start_witness :
    day_count_factor ⟨2021,3,1⟩ ⟨2021,3,1⟩ 1 (some ⟨2021,3,1⟩) (some 2) =
      .error .zeroDivision :=
  day_count_factor_next_eq_start ⟨2021,3,1⟩ ⟨2021,3,1⟩ ⟨2021,3,1⟩ 2 rfl (by norm_num)

/-! ### Claim C7: error characterization of day_count_factor -/

theorem dcf_ok_of_std_basis (start end_ : Date) (b : Int) (o : Option Date) (f : Option Int)
    (hb : b = 0 ∨ b = 2 ∨ b = 3 ∨ b = 4) :
    ∃ v, day_count_factor start end_ b o f = .ok v := by
  rcases hb with rfl | rfl | rfl | rfl
  · exact ⟨_, dcf_nasd_eval start end_ o f⟩
  · unfold day_count_factor
    rw [if_neg (by norm_num), if_neg (by norm_num), if_pos rfl]
    exact ⟨_, rfl⟩
  · unfold day_count_factor
    rw [if_neg (by norm_num), if_neg (by norm_num), if_neg (by norm_num), if_pos rfl]
    exact ⟨_, rfl⟩
  · unfold day_count_factor
    rw [if_neg (by norm_num), if_neg (by norm_num), if_neg (by norm_num),
      if_neg (by norm_num), if_pos rfl]
    exact ⟨_, rfl⟩

theorem dcf_ok_actual (start end_ nd : Date) (q : Int) (hq : 0 < q)
    (hdays : Date.daysBetween start nd ≠ 0) :
    day_count_factor start end_ 1 (some nd) (some q) =
      .ok ((Date.daysBetween start end_ : ℚ) / ((q : ℚ) * (Date.daysBetween start nd : ℚ))) := by
  unfold day_count_factor
  rw [if_neg (by norm_num), if_pos rfl]
  dsimp only
  rw [if_neg (by omega : ¬ q ≤ 0), if_neg (by
    intro hc
    rcases mul_eq_zero.mp hc with h | h
    · omega
    · exact hdays h)]

/-- C7 amended: `day_count_factor` fails with the `InvalidArgument`
class exactly when the basis is unrecognized, or the basis is
Actual/Actual and the next coupon date is missing or the frequency is
missing or non-positive; on every other input it returns a value,
except that under Actual/Actual a supplied next coupon date lying zero
days from the start makes it fail with `ZeroDivisionError` instead. -/
theorem day_count_factor_error_cases (start end_ : Date) (b : Int)
    (o : Option Date) (f : Option Int) :
    (day_count_factor start end_ b o f = .error .invalidArgument ↔
      ((¬ (b = 0 ∨ b = 1 ∨ b = 2 ∨ b = 3 ∨ b = 4)) ∨
        (b = 1 ∧ (o = none ∨ f = none ∨ ∃ q, f = some q ∧ q ≤ 0)))) ∧
    (day_count_factor start end_ b o f = .error .zeroDivision ↔
      (b = 1 ∧ ∃ nd q, o = some nd ∧ f = some q ∧ 0 < q ∧ Date.daysBetween start nd = 0)) ∧
    ((∃ v, day_count_factor start end_ b o f = .ok v) ↔
      ((b = 0 ∨ b = 2 ∨ b = 3 ∨ b = 4) ∨
        (b = 1 ∧ ∃ nd q, o = some nd ∧ f = some q ∧ 0 < q ∧ Date.daysBetween start nd ≠ 0))) := by
  by_cases hb0 : b = 0
  · subst hb0
    obtain ⟨v, hv⟩ := dcf_ok_of_std_basis start end_ 0 o f (by norm_num)
    rw [hv]
    refine ⟨?_, ?_, ?_⟩ <;> simp <;> norm_num
  by_cases hb1 : b = 1
  · subst hb1
    unfold day_count_factor
    rw [if_neg (by norm_num), if_pos rfl]
    cases o with
    | none =>
      refine ⟨?_, ?_, ?_⟩ <;> simp <;> norm_num
    | some nd =>
      cases f with
      | none =>
        refine ⟨?_, ?_, ?_⟩ <;> simp <;> norm_num
      | some q =>
        dsimp only
        by_cases hq : q ≤ 0
        · rw [if_pos hq]
          refine ⟨?_, ?_, ?_⟩ <;> simp <;> norm_num <;> omega
        · rw [if_neg hq]
          by_cases hz : q * Date.daysBetween start nd = 0
          · rw [if_pos hz]
            have hd0 : Date.daysBetween start nd = 0 := by
              rcases mul_eq_zero.mp hz with h | h
              · omega
              · exact h
            refine ⟨?_, ?_, ?_⟩ <;> simp <;> norm_num
            all_goals first
              | omega
              | exact ⟨by omega, hd0⟩
              | (intro h1; exact hd0)
              | exact hd0
          · rw [if_neg hz]
            have hdne : Date.daysBetween start nd ≠ 0 := by
              intro h
              exact hz (by rw [h]; ring)
            refine ⟨?_, ?_, ?_⟩ <;> simp <;> norm_num
            all_goals first
              | omega
              | exact ⟨by omega, hdne⟩
              | (intro h1; exact hdne)
              | exact hdne
  by_cases hb2 : b = 2
  · subst hb2
    obtain ⟨v, hv⟩ := dcf_ok_of_std_basis start end_ 2 o f (by norm_num)
    rw [hv]
    refine ⟨?_, ?_, ?_⟩ <;> simp <;> norm_num
  by_cases hb3 : b = 3
  · subst hb3
    obtain ⟨v, hv⟩ := dcf_ok_of_std_basis start end_ 3 o f (by norm_num)
    rw [hv]
    refine ⟨?_, ?_, ?_⟩ <;> simp <;> norm_num
  by_cases hb4 : b = 4
  · subst hb4
    obtain ⟨v, hv⟩ := dcf_ok_of_std_basis start end_ 4 o f (by norm_num)
    rw [hv]
    refine ⟨?_, ?_, ?_⟩ <;> simp <;> norm_num
  · unfold day_count_factor
    rw [if_neg hb0, if_neg hb1, if_neg hb2, if_neg hb3, if_neg hb4]
    refine ⟨?_, ?_, ?_⟩ <;> simp [hb0, hb1, hb2, hb3, hb4]

/-- C7 counterexample: basis Actual/Actual with a supplied next coupon
date (equal to the start) and positive frequency 2 is outside the
claim's `InvalidArgument` set, yet the call does not return a value: it
fails with `ZeroDivisionError`. -/
theorem day_count_factor_totality_counterexample :
    day_count_factor ⟨2020,1,1⟩ ⟨2020,2,1⟩ 1 (some ⟨2020,1,1⟩) (some 2) =
      .error .zeroDivision ∧
    (day_count_factor ⟨2020,1,1⟩ ⟨2020,2,1⟩ 1 (some ⟨2020,1,1⟩) (some 2)).isOk = false ∧
    day_count_factor ⟨2020,1,1⟩ ⟨2020,2,1⟩ 1 (some ⟨2020,1,1⟩) (some 2) ≠
      .error .invalidArgument := by
  refine ⟨by decide, by decide, by decide⟩

/-! ### List computation helpers for the pricing formula -/

theorem list_sum_map_range (h : ℕ → ℝ) :
    ∀ n, ((List.range n).map h).sum = ∑ i in Finset.range n, h i := by
  intro n
  induction n with
  | zero => simp
  | succ k ih =>
    rw [List.range_succ, List.map_append, List.sum_append, Finset.sum_range_succ, ih]
    simp

theorem dot_formula (n : ℕ) (hn : 1 ≤ n) (c R b0 t : ℝ) :
    (List.zipWith (fun a b => a * b)
      ((List.replicate n c).set (n - 1) (c + R))
      (List.zipWith (fun b e => b ^ e) (List.replicate n b0)
        ((List.range n).map (fun i : ℕ => -((i : ℝ) + t))))).sum =
    ∑ i in Finset.range n, (c + if i = n - 1 then R else 0) * b0 ^ (-((i : ℝ) + t)) := by
  have hz : List.zipWith (fun a b => a * b)
      ((List.replicate n c).set (n - 1) (c + R))
      (List.zipWith (fun b e => b ^ e) (List.replicate n b0)
        ((List.range n).map (fun i : ℕ => -((i : ℝ) + t)))) =
      (List.range n).map
        (fun i => (c + if i = n - 1 then R else 0) * b0 ^ (-((i : ℝ) + t))) := by
    apply List.ext_getElem
    · simp
    · intro i h1 h2
      have hi : i < n := by
        simp only [List.length_zipWith, List.length_set, List.length_replicate,
          List.length_map, List.length_range] at h1
        omega
      rw [List.getElem_zipWith, List.getElem_zipWith, List.getElem_map, List.getElem_range,
        List.getElem_set, List.getElem_replicate, List.getElem_map, List.getElem_range]
      by_cases hc : i = n - 1
      · rw [if_pos (by omega), if_pos hc, List.getElem_replicate]
      · rw [if_neg (by omega), List.getElem_replicate, if_neg hc]
        ring
  rw [hz, list_sum_map_range]

/-! ### Claim C3: pricing with no remaining coupon periods -/

/-- C3 amended: whenever the generated schedule has a single date
(numPeriods = len(schedule) - 1 = 0 < 1, e.g. settlement = maturity),
`price` fails — but with the `IndexError` raised by
`cash_flows[-1] += redemption` on an empty array, not with
`InvalidArgument` — and returns no partial result. -/
theorem price_zero_periods (s m : Date) (r y R : ℝ) (f b : Int) (fuel : Nat) (d : Date)
    (hrun : coupon_dates s m f fuel = .ok (some [d])) :
    price s m r y R f b fuel = .error .indexError := by
  unfold price
  rw [hrun]

/-- C3 counterexample: settlement = maturity = 2021-01-01, frequency 2,
basis 0: `price` fails with `IndexError`, which is not the
`InvalidArgument` failure the claim asserts. -/
theorem price_zero_periods_counterexample :
    price ⟨2021,1,1⟩ ⟨2021,1,1⟩ (1/20) (1/20) 100 2 0 5 = .error .indexError ∧
    (Except.error Err.indexError : Except Err (Option ℝ)) ≠ .error .invalidArgument := by
  constructor
  · rfl
  · intro h
    injection h with h
    exact Err.noConfusion h

/-- C3 amended witness: the concrete settlement = maturity input above,
whose schedule is the single date [2021-01-01]. -/
theorem price_zero_periods_witness :
    coupon_dates ⟨2021,1,1⟩ ⟨2021,1,1⟩ 2 5 = .ok (some [⟨2021,1,1⟩]) ∧
    price ⟨2021,1,1⟩ ⟨2021,1,1⟩ (1/20) (1/20) 100 2 0 5 = .error .indexError :=
  ⟨by decide, price_zero_periods ⟨2021,1,1⟩ ⟨2021,1,1⟩ (1/20) (1/20) 100 2 0 5
    ⟨2021,1,1⟩ (by decide)⟩

/-! ### Claim C1: yield computation dispatch -/

/-- C1 amended: the special-case branch of `yield_` is taken only when
the schedule has exactly one date (settlement at or after maturity), and
it then fails with `NameError` because it reads the undefined variables
`issue` and `first_interest`; for every schedule with two or more dates
— in particular exactly two, the case the claim assigns to the closed
form — `yield_` instead invokes the Newton root-finder on the objective
f(y) = price(settlement, maturity, rate, y, redemption, frequency,
basis) - observedCleanPrice, seeded at x0 = rate with tolerance 1e-7
and at most 100 iterations. -/
theorem yield_dispatch (s m : Date) (r p R : ℝ) (f b : Int) (fuel : Nat) (sched : List Date)
    (hrun : coupon_dates s m f fuel = .ok (some sched)) :
    (sched.length = 1 → yield_ s m r p R f b fuel = .error .nameError) ∧
    (2 ≤ sched.length → yield_ s m r p R f b fuel = .ok (some (.newtonRootFind
      (fun y =>
        match price s m r y R f b fuel with
        | .error e => .error e
        | .ok none => .ok none
        | .ok (some pr) => .ok (some (pr - p)))
      r (1 / 10000000) 100))) := by
  unfold yield_
  rw [hrun]
  dsimp only
  constructor
  · intro h1
    rw [if_pos h1]
  · intro h2
    rw [if_neg (by omega)]

/-- C1 counterexample: a bond one coupon period from maturity
(settlement 2020-01-15, maturity 2020-07-15, frequency 2) has a 2-date
schedule, and `yield_` takes the Newton branch — carrying the pricing
residual objective — not the closed-form single-period branch the claim
asserts. -/
theorem yield_two_date_counterexample :
    coupon_dates ⟨2020,1,15⟩ ⟨2020,7,15⟩ 2 10 =
      .ok (some [⟨2020,1,15⟩, ⟨2020,7,15⟩]) ∧
    yield_ ⟨2020,1,15⟩ ⟨2020,7,15⟩ (1/20) 99 100 2 0 10 =
      .ok (some (.newtonRootFind
        (fun y =>
          match price ⟨2020,1,15⟩ ⟨2020,7,15⟩ (1/20) y 100 2 0 10 with
          | .error e => .error e
          | .ok none => .ok none
          | .ok (some pr) => .ok (some (pr - 99)))
        (1/20) (1 / 10000000) 100)) ∧
    yield_ ⟨2020,1,15⟩ ⟨2020,7,15⟩ (1/20) 99 100 2 0 10 ≠
      .ok (some .closedForm) := by
  refine ⟨by decide, by rfl, ?_⟩
  intro h
  rw [show yield_ ⟨2020,1,15⟩ ⟨2020,7,15⟩ (1/20) 99 100 2 0 10 =
      .ok (some (.newtonRootFind
        (fun y =>
          match price ⟨2020,1,15⟩ ⟨2020,7,15⟩ (1/20) y 100 2 0 10 with
          | .error e => .error e
          | .ok none => .ok none
          | .ok (some pr) => .ok (some (pr - 99)))
        (1/20) (1 / 10000000) 100)) from rfl] at h
  injection h with h
  injection h with h
  exact YieldMethod.noConfusion h

/-- C1 amended witness: the 2-date schedule above takes the Newton
branch on the pricing residual, and a settlement equal to maturity
(1-date schedule) hits the undefined-variable `NameError`. -/
theorem yield_dispatch_witness :
    yield_ ⟨2020,1,15⟩ ⟨2020,7,15⟩ (1/20) 99 100 2 0 10 =
      .ok (some (.newtonRootFind
        (fun y =>
          match price ⟨2020,1,15⟩ ⟨2020,7,15⟩ (1/20) y 100 2 0 10 with
          | .error e => .error e
          | .ok none => .ok none
          | .ok (some pr) => .ok (some (pr - 99)))
        (1/20) (1 / 10000000) 100)) ∧
    yield_ ⟨2020,7,15⟩ ⟨2020,7,15⟩ (1/20) 99 100 2 0 5 = .error .nameError :=
  ⟨(yield_dispatch ⟨2020,1,15⟩ ⟨2020,7,15⟩ (1/20) 99 100 2 0 10
      [⟨2020,1,15⟩, ⟨2020,7,15⟩] (by decide)).2 (by norm_num),
    (yield_dispatch ⟨2020,7,15⟩ ⟨2020,7,15⟩ (1/20) 99 100 2 0 5
      [⟨2020,7,15⟩] (by decide)).1 rfl⟩

/-! ### Claim C2: the clean price formula -/

/-- C2: for every valid settlement < maturity, positive frequency
dividing 12, rate, yield, redemption and supported basis, `price`
returns the sum over i in [0, numPeriods-1] of
cashFlows[i] · (1 + yield/frequency)^(-(i + timeToNext)) minus the
accrued interest, where cashFlows[i] = 100·rate/frequency with the
redemption added to the last flow and
timeToNext = 1 - frequency · dayCountFactor(schedule[0], settlement,
basis, nextCouponDate = schedule[1], frequency); in particular every
cash flow's exponent, not just the first, carries the fractional offset
timeToNext. -/
theorem price_formula (s m : Date) (r y R : ℝ) (f b : Int) (fuel : Nat) (sched : List Date)
    (hs : s.Valid) (hm : m.Valid) (hlt : Date.lt s m) (hf : 0 < f) (hdvd : f ∣ 12)
    (hb0 : 0 ≤ b) (hb4 : b ≤ 4)
    (hrun : coupon_dates s m f fuel = .ok (some sched)) :
    ∃ (d0 d1 : Date) (rest : List Date) (dq : ℚ) (av : ℝ),
      sched = d0 :: d1 :: rest ∧
      day_count_factor d0 s b (some d1) (some f) = .ok dq ∧
      accrint d0 d1 s r 100 f b = .ok av ∧
      price s m r y R f b fuel = .ok (some
        ((∑ i in Finset.range (sched.length - 1),
          (100 * r / (f : ℝ) + if i = sched.length - 2 then R else 0) *
            (1 + y / (f : ℝ)) ^ (-((i : ℝ) + (1 - (f : ℝ) * (dq : ℝ))))) - av)) := by
  have hrun0 := hrun
  unfold coupon_dates at hrun
  rw [if_neg (by omega : ¬ f = 0)] at hrun
  have hstep : (-MONTHS_IN_YEAR).fdiv f ≤ -1 := neg_twelve_fdiv_le (by omega)
  obtain ⟨d0, tl, hsched, hd0⟩ := couponLoop_head _ _ _ _ hrun
  have hlen : 2 ≤ sched.length := by
    have h2 := couponLoop_two_le_length hlt hrun
    omega
  subst hsched
  cases tl with
  | nil => simp at hlen
  | cons d1 rest =>
    have hvalid := couponLoop_valid _ _ _ _ hm
      (by intro x hx; exact absurd hx (List.not_mem_nil x)) hrun
    have hchain := couponLoop_chain _ _ _ _ (List.chain'_singleton m) hrun
    have hd1v : d1.Valid := hvalid d1 (by simp)
    have hd0v : d0.Valid := hvalid d0 (by simp)
    have hd0d1 : d0 = Date.addMonths d1 ((-MONTHS_IN_YEAR).fdiv f) :=
      (List.chain'_cons.mp hchain).1
    have hlt01 : d0.lt d1 := by
      rw [hd0d1]
      exact Date.addMonths_lt hd1v hstep
    have hdays : 0 < Date.daysBetween d0 d1 := Date.daysBetween_pos hd0v hd1v hlt01
    have hdcf : ∃ dq : ℚ, day_count_factor d0 s b (some d1) (some f) = .ok dq := by
      by_cases hb1 : b = 1
      · subst hb1
        exact ⟨_, dcf_ok_actual d0 s d1 f hf (by omega)⟩
      · exact dcf_ok_of_std_basis d0 s b (some d1) (some f) (by omega)
    obtain ⟨dq, hdq⟩ := hdcf
    have haccr : accrint d0 d1 s r 100 f b = .ok (100 * r * (dq : ℝ)) := by
      unfold accrint
      rw [hdq]
    refine ⟨d0, d1, rest, dq, 100 * r * (dq : ℝ), rfl, hdq, haccr, ?_⟩
    unfold price
    rw [hrun0]
    dsimp only
    rw [hdq]
    dsimp only
    rw [haccr]
    dsimp only
    simp only [List.length_cons, Nat.add_sub_cancel]
    have hdot := dot_formula (rest.length + 1) (by omega) (100 * r / (f : ℝ)) R
      (1 + y / (f : ℝ)) (1 - (f : ℝ) * (dq : ℝ))
    simp only [Nat.add_sub_cancel] at hdot
    rw [hdot]
    simp only [show rest.length + 1 + 1 - 2 = rest.length from by omega]

/-- C2 witness: settlement 2020-01-15, maturity 2020-07-15,
frequency 2, basis 0 — a one-period bond whose schedule is
[2020-01-15, 2020-07-15]. -/
theorem price_formula_witness :
    ∃ (d0 d1 : Date) (rest : List Date) (dq : ℚ) (av : ℝ),
      [(⟨2020,1,15⟩ : Date), ⟨2020,7,15⟩] = d0 :: d1 :: rest ∧
      day_count_factor d0 ⟨2020,1,15⟩ 0 (some d1) (some 2) = .ok dq ∧
      accrint d0 d1 ⟨2020,1,15⟩ (1/20) 100 2 0 = .ok av ∧
      price ⟨2020,1,15⟩ ⟨2020,7,15⟩ (1/20) (3/100) 100 2 0 10 = .ok (some
        ((∑ i in Finset.range ([(⟨2020,1,15⟩ : Date), ⟨2020,7,15⟩].length - 1),
          (100 * (1/20) / ((2 : Int) : ℝ) +
            if i = [(⟨2020,1,15⟩ : Date), ⟨2020,7,15⟩].length - 2 then (100 : ℝ) else 0) *
            (1 + (3/100) / ((2 : Int) : ℝ)) ^
              (-((i : ℝ) + (1 - ((2 : Int) : ℝ) * (dq : ℝ))))) - av)) :=
  price_formula ⟨2020,1,15⟩ ⟨2020,7,15⟩ (1/20) (3/100) 100 2 0 10
    [⟨2020,1,15⟩, ⟨2020,7,15⟩] (by decide) (by decide) (by decide) (by norm_num)
    (by norm_num) (by norm_num) (by norm_num) (by decide)
